import Mathlib

set_option allowUnsafeReducibility true

attribute [semireducible] Rat.add Rat.mul Rat.inv Rat.sub Rat.ofScientific

/-!
Verification development for the DSMR ("DRM4") smart-meter telegram parser
(`src/main.py` of `nl_energy_mon`).

The Python source is shallowly embedded below:

* machine integers and Python floats are modelled as `Nat` / `Int` / `ℚ`
  (Python's `float('nan')` is modelled as `none` in `FloatV := Option ℚ`;
  all decimal literals appearing in the claims are exactly representable
  IEEE doubles, so the exact-rational model agrees with the code on them);
* `re.search` for the two fixed patterns of the source is implemented
  directly (leftmost match, greedy character classes — for these two
  patterns maximal munch coincides with the backtracking semantics);
* `datetime.strptime` for the two fixed formats is implemented with the
  ordered-alternation (backtracking) semantics of CPython's `_strptime`
  regexes, followed by the `datetime` range validation;
* `pytz.timezone("Europe/Amsterdam")` localization is modelled with the
  EU daylight-saving rule (CET = UTC+1, CEST = UTC+2, switching on the
  last Sundays of March and October), which is the IANA rule for the
  contemporary dates the meter emits, with pytz's `is_dst=False`
  convention for ambiguous/nonexistent local times;
* the serial port is modelled as the list of text lines it yields, and the
  `while True` reader loop of `parse_telegram` becomes structural
  recursion over that list; exceptions escaping the loop become the
  `Outcome.crash` result, and exhausting the list before the end marker
  becomes `Outcome.starved`.
-/

/-! ## Characters and decimal digit strings -/

/-- Is `c` an ASCII decimal digit (`[0-9]`, the `\d` class for our ASCII input). -/
def isDig (c : Char) : Bool := 48 ≤ c.toNat && c.toNat ≤ 57

/-- Numeric value of a digit character. -/
def charVal (c : Char) : Nat := c.toNat - 48

/-- The digit character for `n < 10`. -/
def digitChar (n : Nat) : Char := Char.ofNat (48 + n)

/-- Value of a digit string, most significant first (`int(s)` on digit strings). -/
def ofDigitVals (cs : List Char) : Nat := cs.foldl (fun a c => 10 * a + charVal c) 0

/-- Fuel-driven digit expansion (structural recursion so that the kernel can
evaluate it; the fuel is irrelevant as long as it exceeds the number). -/
def natToDigitsAux (fuel n : Nat) : List Char :=
  match fuel with
  | 0 => []
  | fuel + 1 => if n < 10 then [digitChar n] else natToDigitsAux fuel (n / 10) ++ [digitChar (n % 10)]

/-- Decimal digits of `n`, most significant first (Python's `str` on `int`). -/
def natToDigits (n : Nat) : List Char := natToDigitsAux (n + 1) n

/-- `str(n)` for a natural number. -/
def natToString (n : Nat) : String := String.mk (natToDigits n)

theorem natToDigitsAux_congr : ∀ (f1 f2 n : Nat), n < f1 → n < f2 →
    natToDigitsAux f1 n = natToDigitsAux f2 n := by
  intro f1
  induction f1 with
  | zero => intro f2 n h1; omega
  | succ g1 ih =>
    intro f2 n h1 h2
    cases f2 with
    | zero => omega
    | succ g2 =>
      simp only [natToDigitsAux]
      by_cases hn : n < 10
      · rw [if_pos hn, if_pos hn]
      · rw [if_neg hn, if_neg hn]
        have hd : n / 10 < n := Nat.div_lt_self (by omega) (by omega)
        rw [ih g2 (n / 10) (by omega) (by omega)]

theorem natToDigitsAux_succ (fuel n : Nat) :
    natToDigitsAux (fuel + 1) n =
      if n < 10 then [digitChar n] else natToDigitsAux fuel (n / 10) ++ [digitChar (n % 10)] := rfl

/-- The defining recurrence of `natToDigits`. -/
theorem natToDigits_eq (n : Nat) :
    natToDigits n = if n < 10 then [digitChar n]
      else natToDigits (n / 10) ++ [digitChar (n % 10)] := by
  unfold natToDigits
  rw [natToDigitsAux_succ]
  by_cases hn : n < 10
  · rw [if_pos hn, if_pos hn]
  · rw [if_neg hn, if_neg hn]
    have hd : n / 10 < n := Nat.div_lt_self (by omega) (by omega)
    rw [natToDigitsAux_congr n (n / 10 + 1) (n / 10) hd (by omega)]

theorem isDig_digitChar {n : Nat} (h : n < 10) : isDig (digitChar n) = true := by
  interval_cases n <;> decide

theorem charVal_digitChar {n : Nat} (h : n < 10) : charVal (digitChar n) = n := by
  interval_cases n <;> decide

theorem digitChar_charVal {c : Char} (h : isDig c = true) : digitChar (charVal c) = c := by
  simp only [isDig, Bool.and_eq_true, decide_eq_true_eq] at h
  have h48 : 48 + charVal c = c.toNat := by unfold charVal; omega
  simp only [digitChar, h48, Char.ofNat_toNat]

theorem charVal_lt_ten {c : Char} (h : isDig c = true) : charVal c < 10 := by
  simp only [isDig, Bool.and_eq_true, decide_eq_true_eq] at h
  unfold charVal; omega

theorem natToDigits_ne_nil (n : Nat) : natToDigits n ≠ [] := by
  rw [natToDigits_eq]
  split <;> simp

theorem natToDigits_all_dig (n : Nat) : ∀ c ∈ natToDigits n, isDig c = true := by
  induction n using Nat.strong_induction_on with
  | _ n ih =>
    rw [natToDigits_eq]
    split
    · intro c hc
      simp only [List.mem_singleton] at hc
      subst hc
      exact isDig_digitChar (by omega)
    · intro c hc
      rw [List.mem_append] at hc
      rcases hc with hc | hc
      · exact ih (n / 10) (Nat.div_lt_self (by omega) (by omega)) c hc
      · simp only [List.mem_singleton] at hc
        subst hc
        exact isDig_digitChar (Nat.mod_lt _ (by omega))

theorem ofDigitVals_append (cs : List Char) (c : Char) :
    ofDigitVals (cs ++ [c]) = 10 * ofDigitVals cs + charVal c := by
  simp [ofDigitVals, List.foldl_append]

theorem ofDigitVals_natToDigits (n : Nat) : ofDigitVals (natToDigits n) = n := by
  induction n using Nat.strong_induction_on with
  | _ n ih =>
    rw [natToDigits_eq]
    split
    · next h =>
      simp [ofDigitVals, charVal_digitChar h]
    · next h =>
      rw [ofDigitVals_append, ih (n / 10) (Nat.div_lt_self (by omega) (by omega)),
        charVal_digitChar (Nat.mod_lt _ (by omega))]
      omega

theorem natToDigits_length_le {n k : Nat} (hk : 1 ≤ k) (h : n < 10 ^ k) :
    (natToDigits n).length ≤ k := by
  induction n using Nat.strong_induction_on generalizing k with
  | _ n ih =>
    rw [natToDigits_eq]
    split
    · simpa using hk
    · next hn =>
      rw [List.length_append]
      have hk2 : 2 ≤ k := by
        rcases Nat.lt_or_ge k 2 with hlt | hge
        · exfalso
          have hk1 : k = 1 := by omega
          subst hk1
          rw [pow_one] at h
          omega
        · exact hge
      have hdiv : n / 10 < 10 ^ (k - 1) := by
        have h10 : 10 ^ k = 10 * 10 ^ (k - 1) := by
          conv_lhs => rw [show k = 1 + (k - 1) by omega]
          rw [pow_add, pow_one]
        apply Nat.div_lt_of_lt_mul
        omega
      have := ih (n / 10) (Nat.div_lt_self (by omega) (by omega)) (by omega) hdiv
      simp only [List.length_singleton]
      omega

theorem ofDigitVals_lt (cs : List Char) (h : ∀ c ∈ cs, isDig c = true) :
    ofDigitVals cs < 10 ^ cs.length := by
  induction cs using List.reverseRecOn with
  | nil => simp [ofDigitVals]
  | append_singleton cs c ih =>
    rw [ofDigitVals_append]
    have h1 := ih (fun x hx => h x (List.mem_append_left _ hx))
    have h2 : charVal c < 10 := charVal_lt_ten (h c (List.mem_append_right _ (by simp)))
    rw [List.length_append, List.length_singleton, pow_add, pow_one]
    omega

theorem ofDigitVals_pos (c : Char) (cs : List Char) (hd : isDig c = true) (h0 : c ≠ '0') :
    1 ≤ ofDigitVals (c :: cs) := by
  have hv : 1 ≤ charVal c := by
    simp only [isDig, Bool.and_eq_true, decide_eq_true_eq] at hd
    have : c.toNat ≠ 48 := by
      intro hc
      apply h0
      have : c = Char.ofNat c.toNat := (Char.ofNat_toNat c).symm
      rw [this, hc]
    unfold charVal; omega
  have : ∀ (l : List Char) (a : Nat), 1 ≤ a → 1 ≤ l.foldl (fun a c => 10 * a + charVal c) a := by
    intro l
    induction l with
    | nil => intro a ha; simpa using ha
    | cons x xs ih =>
      intro a ha
      simp only [List.foldl_cons]
      exact ih _ (by omega)
  simpa [ofDigitVals] using this cs (charVal c) (by omega)

/-- Decimal digit strings without a leading zero are reproduced by `natToDigits`:
the round trip through the numeric value is the identity on them. -/
theorem natToDigits_ofDigitVals (cs : List Char) (hne : cs ≠ [])
    (hdig : ∀ c ∈ cs, isDig c = true) (h0 : cs.head? ≠ some '0') :
    natToDigits (ofDigitVals cs) = cs := by
  induction cs using List.reverseRecOn with
  | nil => exact absurd rfl hne
  | append_singleton cs c ih =>
    rcases cs with _ | ⟨b, bs⟩
    · simp only [List.nil_append]
      have hd : isDig c = true := hdig c (by simp)
      have hlt : charVal c < 10 := charVal_lt_ten hd
      have : ofDigitVals [c] = charVal c := by simp [ofDigitVals]
      rw [this]
      rw [natToDigits_eq]
      rw [if_pos hlt, digitChar_charVal hd]
    · have hne' : b :: bs ≠ [] := by simp
      have hdig' : ∀ x ∈ b :: bs, isDig x = true :=
        fun x hx => hdig x (List.mem_append_left _ hx)
      have h0' : (b :: bs).head? ≠ some '0' := by
        intro hcontra
        apply h0
        simpa using hcontra
      have hbdig : isDig b = true := hdig' b (by simp)
      have hb0 : b ≠ '0' := by
        intro hcon
        apply h0'
        rw [hcon]; rfl
      have hpos : 1 ≤ ofDigitVals (b :: bs) := ofDigitVals_pos b bs hbdig hb0
      rw [ofDigitVals_append]
      have hcd : isDig c = true := hdig c (by simp)
      have hc10 : charVal c < 10 := charVal_lt_ten hcd
      have hge : ¬ (10 * ofDigitVals (b :: bs) + charVal c < 10) := by omega
      rw [natToDigits_eq, if_neg hge]
      have hdiv : (10 * ofDigitVals (b :: bs) + charVal c) / 10 = ofDigitVals (b :: bs) := by
        omega
      have hmod : (10 * ofDigitVals (b :: bs) + charVal c) % 10 = charVal c := by
        omega
      rw [hdiv, hmod, ih hne' hdig' h0', digitChar_charVal hcd]

/-! ## Python `float()` and `int()` on the strings our regexes produce -/

/-- Is `c` a digit or a dot (the `[\d.]` class of `tel_content_re_extra`). -/
def isDigDot (c : Char) : Bool := isDig c || c = '.'

/-- `float(s)` for strings drawn from `[\d.]*`: an optional integer part,
an optional single dot, an optional fraction part, at least one digit in all.
Returns `none` where Python raises `ValueError` (e.g. `"."`, `"1.2.3"`).
Exact-rational model of the IEEE double (see the file header). -/
def pyFloatNum (cs : List Char) : Option ℚ :=
  let ip := cs.takeWhile isDig
  let rest := cs.dropWhile isDig
  match rest with
  | [] => if ip.isEmpty then none else some ((ofDigitVals ip : ℚ))
  | '.' :: fp =>
    if fp.all isDig && (!ip.isEmpty || !fp.isEmpty) then
      some ((ofDigitVals ip : ℚ) + (ofDigitVals fp : ℚ) / (10 : ℚ) ^ fp.length)
    else none
  | _ => none

/-- A Python float value: `none` models `float('nan')`. -/
abbrev FloatV : Type := Option ℚ

instance {ε α : Type} [DecidableEq ε] [DecidableEq α] : DecidableEq (Except ε α) := fun x y =>
  match x, y with
  | .ok a, .ok b => if h : a = b then .isTrue (by rw [h]) else .isFalse (by simp [h])
  | .error a, .error b => if h : a = b then .isTrue (by rw [h]) else .isFalse (by simp [h])
  | .ok _, .error _ => .isFalse (by simp)
  | .error _, .ok _ => .isFalse (by simp)

/-- `float(x)` as used in the list comprehension of `parse_telegram`:
the default string `'nan'` becomes NaN, anything else is parsed;
`.error` models an uncaught `ValueError`. -/
def pyFloatV (s : String) : Except Unit FloatV :=
  if s = "nan" then .ok none
  else
    match pyFloatNum s.data with
    | some q => .ok (some q)
    | none => .error ()

/-- `int(q)` for a rational (Python truncates toward zero). -/
def pyTruncToInt (q : ℚ) : Int := q.num.tdiv (q.den : Int)

/-- `int(q)` clamped to `Nat` (all values flowing into it in this program
are non-negative, coming from unsigned decimal literals). -/
def pyTruncToNat (q : ℚ) : Nat := (pyTruncToInt q).toNat

/-! ## Naive and UTC datetimes -/

/-- A `datetime` at second precision: either naive local wall-clock time or
(after conversion) UTC.  Aware UTC datetimes compare by instant, which for
this representation is lexicographic field order. -/
structure DT where
  y : Nat
  m : Nat
  d : Nat
  h : Nat
  mi : Nat
  s : Nat
deriving DecidableEq, Repr

/-- Lexicographic (= by-instant, for UTC values) `<=` on datetimes, modelling
Python's comparison of two UTC-aware `datetime`s. -/
def dtLe (a b : DT) : Bool :=
  if a.y < b.y then true else if b.y < a.y then false
  else if a.m < b.m then true else if b.m < a.m then false
  else if a.d < b.d then true else if b.d < a.d then false
  else if a.h < b.h then true else if b.h < a.h then false
  else if a.mi < b.mi then true else if b.mi < a.mi then false
  else decide (a.s ≤ b.s)

/-- Gregorian leap-year rule. -/
def isLeap (y : Nat) : Bool := y % 4 == 0 && (y % 100 != 0 || y % 400 == 0)

/-- Days in a month (`0` for an invalid month number). -/
def daysInMonth (y m : Nat) : Nat :=
  match m with
  | 1 => 31
  | 2 => if isLeap y then 29 else 28
  | 3 => 31
  | 4 => 30
  | 5 => 31
  | 6 => 30
  | 7 => 31
  | 8 => 31
  | 9 => 30
  | 10 => 31
  | 11 => 30
  | 12 => 31
  | _ => 0

/-- Day of week by Sakamoto's method, `0 = Sunday` (Gregorian calendar). -/
def dayOfWeek (y m d : Nat) : Nat :=
  let y' := if m < 3 then y - 1 else y
  let t : Nat :=
    match m with
    | 1 => 0 | 2 => 3 | 3 => 2 | 4 => 5 | 5 => 0 | 6 => 3
    | 7 => 5 | 8 => 1 | 9 => 4 | 10 => 6 | 11 => 2 | 12 => 4 | _ => 0
  (y' + y' / 4 - y' / 100 + y' / 400 + t + d) % 7

/-- Day of month of the last Sunday of the given month. -/
def lastSunday (y m : Nat) : Nat :=
  let L := daysInMonth y m
  L - dayOfWeek y m L

/-- Is the naive Amsterdam wall-clock time in daylight-saving time?
EU rule with pytz's `is_dst=False` convention: DST holds from 03:00 local
on the last Sunday of March up to (excluding) 02:00 local on the last
Sunday of October. -/
def isDstAms (n : DT) : Bool :=
  let spring : DT := ⟨n.y, 3, lastSunday n.y 3, 3, 0, 0⟩
  let fall : DT := ⟨n.y, 10, lastSunday n.y 10, 2, 0, 0⟩
  dtLe spring n && !(dtLe fall n)

/-- UTC offset (hours) of Europe/Amsterdam at the given naive local time. -/
def tzOffsetHours (n : DT) : Nat := if isDstAms n then 2 else 1

/-- Subtract `off < 24` hours from a calendar datetime (the calendar part of
`datetime.astimezone`, specialised to the 1- or 2-hour offsets used here). -/
def subHours (dt : DT) (off : Nat) : DT :=
  if off ≤ dt.h then { dt with h := dt.h - off }
  else
    let h' := dt.h + 24 - off
    if 1 < dt.d then { dt with d := dt.d - 1, h := h' }
    else if 1 < dt.m then { dt with m := dt.m - 1, d := daysInMonth dt.y (dt.m - 1), h := h' }
    else { dt with y := dt.y - 1, m := 12, d := 31, h := h' }

/-- `TZ_DRM4.localize(naive).astimezone(pytz.utc)`. -/
def amsToUtc (naive : DT) : DT := subHours naive (tzOffsetHours naive)

/-! ## `datetime.strptime` with format `'%y%m%d%H%M%S'` (`DRM4_DT_FMT`)

CPython's `_strptime` compiles the format to a regex of ordered
alternations (e.g. `%m` becomes `1[0-2]|0[1-9]|[1-9]`), matches it with
backtracking, requires the whole string to be consumed, and then lets the
`datetime` constructor validate the fields.  We reproduce exactly that. -/

/-- Ordered candidate list for one two-or-one-digit directive: first the
two-digit alternatives (guarded by `c2` on the two digit values), then the
one-digit alternative (guarded by `c1`). -/
def tokCands (c2 : Nat → Nat → Bool) (c1 : Nat → Bool) : List Char → List (Nat × List Char)
  | a :: b :: r =>
    (if isDig a && isDig b && c2 (charVal a) (charVal b) then
      [(10 * charVal a + charVal b, r)] else []) ++
    (if isDig a && c1 (charVal a) then [(charVal a, b :: r)] else [])
  | [a] => if isDig a && c1 (charVal a) then [(charVal a, [])] else []
  | [] => []

/-- Try candidates in order, backtracking into the continuation `k`. -/
def tryCands {α : Type} (cands : List (Nat × List Char)) (k : Nat → List Char → Option α) :
    Option α :=
  match cands with
  | [] => none
  | (v, r) :: more =>
    match k v r with
    | some x => some x
    | none => tryCands more k

/-- `%y` two-digit alternative: any two digits (`\d\d`). -/
def year2 (_ _ : Nat) : Bool := true
/-- `%y` one-digit alternative: any digit (`\d`). -/
def year1 (_ : Nat) : Bool := true
/-- `%m` two-digit alternatives `1[0-2]|0[1-9]`. -/
def month2 (a b : Nat) : Bool := (a == 1 && decide (b ≤ 2)) || (a == 0 && decide (1 ≤ b))
/-- `%m` one-digit alternative `[1-9]`. -/
def month1 (a : Nat) : Bool := decide (1 ≤ a)
/-- `%d` two-digit alternatives `3[01]|[12]\d|0[1-9]`. -/
def day2 (a b : Nat) : Bool :=
  (a == 3 && decide (b ≤ 1)) || (a == 1 || a == 2) || (a == 0 && decide (1 ≤ b))
/-- `%d` one-digit alternative `[1-9]`. -/
def day1 (a : Nat) : Bool := decide (1 ≤ a)
/-- `%H` two-digit alternatives `2[0-3]|[0-1]\d`. -/
def hour2 (a b : Nat) : Bool := (a == 2 && decide (b ≤ 3)) || decide (a ≤ 1)
/-- `%H` one-digit alternative `\d`. -/
def hour1 (_ : Nat) : Bool := true
/-- `%M` two-digit alternative `[0-5]\d`. -/
def minute2 (a _ : Nat) : Bool := decide (a ≤ 5)
/-- `%M` one-digit alternative `\d`. -/
def minute1 (_ : Nat) : Bool := true
/-- `%S` two-digit alternatives `6[0-1]|[0-5]\d`. -/
def sec2 (a b : Nat) : Bool := (a == 6 && decide (b ≤ 1)) || decide (a ≤ 5)
/-- `%S` one-digit alternative `\d`. -/
def sec1 (_ : Nat) : Bool := true

/-- Backtracking match of `%y%m%d%H%M%S` against the whole string. -/
def drm4Match (cs : List Char) : Option (Nat × Nat × Nat × Nat × Nat × Nat) :=
  tryCands (tokCands year2 year1 cs) (fun vy r1 =>
  tryCands (tokCands month2 month1 r1) (fun vm r2 =>
  tryCands (tokCands day2 day1 r2) (fun vd r3 =>
  tryCands (tokCands hour2 hour1 r3) (fun vh r4 =>
  tryCands (tokCands minute2 minute1 r4) (fun vmi r5 =>
  tryCands (tokCands sec2 sec1 r5) (fun vs r6 =>
  if r6.isEmpty then some (vy, vm, vd, vh, vmi, vs) else none))))))

/-- The `%y` century pivot: `00-68` map to the 2000s, `69-99` to the 1900s. -/
def drm4Century (yy : Nat) : Nat := if yy ≤ 68 then 2000 + yy else 1900 + yy

/-- `datetime.strptime(s, DRM4_DT_FMT)`: the backtracking match, the `%y`
century pivot, and the `datetime` constructor's range validation.
`none` models `ValueError`. -/
def pyStrptimeDrm4 (s : String) : Option DT :=
  match drm4Match s.data with
  | none => none
  | some (yy, m, d, h, mi, sec) =>
    if 1 ≤ drm4Century yy && decide (drm4Century yy ≤ 9999) && decide (1 ≤ m) &&
        decide (m ≤ 12) && decide (1 ≤ d) && decide (d ≤ daysInMonth (drm4Century yy) m) &&
        decide (h ≤ 23) && decide (mi ≤ 59) && decide (sec ≤ 59) then
      some ⟨drm4Century yy, m, d, h, mi, sec⟩
    else none

/-- `parse_dt_to_utc(dt_naive_f)`: `str(int(...))`, `strptime`, localize in
Europe/Amsterdam, convert to UTC. `.error` models an uncaught exception
(`int(nan)` or a `strptime` failure). -/
def pyParseDtToUtc (v : FloatV) : Except Unit DT :=
  match v with
  | none => .error ()
  | some q =>
    match pyStrptimeDrm4 (natToString (pyTruncToNat q)) with
    | none => .error ()
    | some naive => .ok (amsToUtc naive)

/-! ## `strftime`/`strptime` with format `'%Y-%m-%dT%H:%M:%SZ'` (`INFLUX_DT_FMT`) -/

/-- Zero-pad the decimal digits of `n` to width `w` (the `%0wd` rendering
used by `strftime` for `%Y`, `%m`, `%d`, `%H`, `%M`, `%S`). -/
def padDigits (w n : Nat) : List Char :=
  let ds := natToDigits n
  List.replicate (w - ds.length) '0' ++ ds

/-- `dt.strftime(INFLUX_DT_FMT)`: ISO-8601 UTC text at second precision. -/
def formatIso (dt : DT) : String :=
  String.mk (padDigits 4 dt.y ++ '-' :: (padDigits 2 dt.m ++ '-' :: (padDigits 2 dt.d ++
    'T' :: (padDigits 2 dt.h ++ ':' :: (padDigits 2 dt.mi ++ ':' ::
      (padDigits 2 dt.s ++ ['Z']))))))

/-- `%Y`: up to four digits, maximal munch (equivalent to the backtracking
semantics here because the following literal `'-'` is not a digit). -/
def rdY (cs : List Char) : Option (Nat × List Char) :=
  let ds := (cs.takeWhile isDig).take 4
  if ds.isEmpty then none else some (ofDigitVals ds, cs.drop ds.length)

/-- A two-digit-or-one-digit directive, deterministically: the two-digit
alternatives first (guard `c2`), then the one-digit alternative (guard
`c1`).  Equivalent to the backtracking semantics in this format because
every directive is followed by a non-digit literal. -/
def rdTwoOne (c2 : Nat → Nat → Bool) (c1 : Nat → Bool) : List Char → Option (Nat × List Char)
  | a :: b :: r =>
    if isDig a && isDig b && c2 (charVal a) (charVal b) then
      some (10 * charVal a + charVal b, r)
    else if isDig a && c1 (charVal a) then some (charVal a, b :: r) else none
  | [a] => if isDig a && c1 (charVal a) then some (charVal a, []) else none
  | [] => none

/-- One literal character of the format. -/
def rdLit (ch : Char) : List Char → Option (List Char)
  | c :: r => if c = ch then some r else none
  | [] => none

/-- `pytz.utc.localize(datetime.strptime(s, INFLUX_DT_FMT))` (`main`, reading
the watermark back from the sink): parse the ISO text and tag it as UTC
(which leaves the fields unchanged).  `none` models `ValueError`. -/
def parseIsoUtc (s : String) : Option DT :=
  (rdY s.data).bind (fun p1 =>
  (rdLit '-' p1.2).bind (fun r2 =>
  (rdTwoOne month2 month1 r2).bind (fun p2 =>
  (rdLit '-' p2.2).bind (fun r4 =>
  (rdTwoOne day2 day1 r4).bind (fun p3 =>
  (rdLit 'T' p3.2).bind (fun r6 =>
  (rdTwoOne hour2 hour1 r6).bind (fun p4 =>
  (rdLit ':' p4.2).bind (fun r8 =>
  (rdTwoOne minute2 minute1 r8).bind (fun p5 =>
  (rdLit ':' p5.2).bind (fun r10 =>
  (rdTwoOne sec2 sec1 r10).bind (fun p6 =>
  (rdLit 'Z' p6.2).bind (fun r12 =>
  if r12.isEmpty &&
      (1 ≤ p1.1 && decide (p1.1 ≤ 9999) && decide (1 ≤ p2.1) && decide (p2.1 ≤ 12) &&
       decide (1 ≤ p3.1) && decide (p3.1 ≤ daysInMonth p1.1 p2.1) && decide (p4.1 ≤ 23) &&
       decide (p5.1 ≤ 59) && decide (p6.1 ≤ 59)) then
    some ⟨p1.1, p2.1, p3.1, p4.1, p5.1, p6.1⟩
  else none))))))))))))

/-! ## The two regexes of the source

`tel_id_re = (\d+)-(\d+):(\d+)\.(\d+)\.(\d+)` and
`tel_content_re_extra = \(([\d.]*)[^)]*\)\(?([\d.]+)?`, both used with
`re.search` (leftmost match).  Maximal munch is faithful for both: each
`\d+`/`[\d.]*`/`[^)]*` is followed by a character outside its class. -/

/-- A maximal nonempty digit run (`\d+`) and its value. -/
def digitsRun (cs : List Char) : Option (Nat × List Char) :=
  let ds := cs.takeWhile isDig
  if ds.isEmpty then none else some (ofDigitVals ds, cs.dropWhile isDig)

/-- Try to match `tel_id_re` anchored at the head of `cs`. -/
def matchIdAt (cs : List Char) : Option (Nat × Nat × Nat × Nat × Nat) := do
  let (a, r) ← digitsRun cs
  let r ← rdLit '-' r
  let (b, r) ← digitsRun r
  let r ← rdLit ':' r
  let (c, r) ← digitsRun r
  let r ← rdLit '.' r
  let (d, r) ← digitsRun r
  let r ← rdLit '.' r
  let (e, _) ← digitsRun r
  pure (a, b, c, d, e)

/-- Leftmost `tel_id_re.search` over a char list. -/
def idSearchAux : List Char → Option (Nat × Nat × Nat × Nat × Nat)
  | [] => none
  | c :: rest =>
    match matchIdAt (c :: rest) with
    | some v => some v
    | none => idSearchAux rest

/-- `tel_id_re.search(line)`, giving the five identifier groups as numbers
(the code applies `int` to each group). -/
def idSearch (line : String) : Option (Nat × Nat × Nat × Nat × Nat) := idSearchAux line.data

/-- The tail of a `tel_content_re_extra` match after its opening `(`:
group 1 (`[\d.]*`, may be empty), skip `[^)]*` and the `)`, optionally
consume one `(`, then group 2 (`([\d.]+)?`, `none` if it did not
participate). -/
def contentAfterParen (rest : List Char) : String × Option String :=
  let g1 := rest.takeWhile isDigDot
  let r2 := rest.dropWhile isDigDot
  let r3 := (r2.dropWhile (fun c => !(c = ')'))).drop 1
  let r4 := match r3 with
    | '(' :: t => t
    | _ => r3
  let g2 := r4.takeWhile isDigDot
  (String.mk g1, if g2.isEmpty then none else some (String.mk g2))

/-- Leftmost `tel_content_re_extra.search`: the match starts at the first
`(`; it succeeds iff some `)` follows that `(` (if the first `(` has no
later `)`, no later one has either). -/
def contentSearchAux : List Char → Option (String × Option String)
  | [] => none
  | '(' :: rest => if rest.contains ')' then some (contentAfterParen rest) else none
  | _ :: rest => contentSearchAux rest

/-- `tel_content_re_extra.search(line)` giving `(group1, group2)`. -/
def contentSearch (line : String) : Option (String × Option String) :=
  contentSearchAux line.data

/-- `groups('nan')` + `[float(x) for x in ... if x]` + the shift
`[nan, converted[0]]` when fewer than two values survive + the unpacking
`value, extra = converted`.  `.error` models an uncaught exception
(`float` on an all-dots string, or the `IndexError` on an empty list). -/
def convertList : List String → Except Unit (List FloatV)
  | [] => .ok []
  | s :: rest =>
    match pyFloatV s with
    | .error e => .error e
    | .ok v =>
      match convertList rest with
      | .error e => .error e
      | .ok vs => .ok (v :: vs)

def convertGroups (g : String × Option String) : Except Unit (FloatV × FloatV) :=
  let strs := [g.1, g.2.getD "nan"].filter (fun s => !(s = ""))
  match convertList strs with
  | .error e => .error e
  | .ok converted =>
    match converted with
    | [a, b] => .ok (a, b)
    | [a] => .ok (none, a)
    | _ => .error ()

/-! ## The DRM4 field catalog (`class Drm4(Enum)`) -/

/-- The `Drm4` enumeration of object identifiers. -/
inductive Drm4 where
  | VERSION
  | TIMESTAMP_ELECTR
  | EQ_ID
  | READ_DEL_T1_KWH
  | READ_DEL_T2_KWH
  | TARIFF_INDICATOR
  | POWER_DEL_KW
  | CURRENT_A
  | GAS_T_VOLUME_M3
  | UNUSED_01
  | UNUSED_02
  | UNUSED_03
  | UNUSED_04
  | UNUSED_05
  | UNUSED_06
  | UNUSED_07
  | UNUSED_08
  | UNUSED_09
  | UNUSED_10
  | UNUSED_11
  | UNUSED_12
  | UNUSED_13
  | UNUSED_14
deriving DecidableEq, Repr

/-- The `(identifier tuple, member)` pairs of `Drm4`, in source order. -/
def drm4Table : List ((Nat × Nat × Nat × Nat × Nat) × Drm4) :=
  [((1, 3, 0, 2, 8), .VERSION),
   ((0, 0, 1, 0, 0), .TIMESTAMP_ELECTR),
   ((0, 0, 96, 1, 1), .EQ_ID),
   ((1, 0, 1, 8, 1), .READ_DEL_T1_KWH),
   ((1, 0, 1, 8, 2), .READ_DEL_T2_KWH),
   ((0, 0, 96, 14, 0), .TARIFF_INDICATOR),
   ((1, 0, 21, 7, 0), .POWER_DEL_KW),
   ((1, 0, 31, 7, 0), .CURRENT_A),
   ((0, 1, 24, 2, 1), .GAS_T_VOLUME_M3),
   ((1, 0, 2, 8, 1), .UNUSED_01),
   ((1, 0, 2, 8, 2), .UNUSED_02),
   ((1, 0, 1, 7, 0), .UNUSED_03),
   ((1, 0, 2, 7, 0), .UNUSED_04),
   ((0, 0, 96, 7, 9), .UNUSED_05),
   ((0, 0, 96, 7, 21), .UNUSED_06),
   ((1, 0, 99, 97, 0), .UNUSED_07),
   ((1, 0, 32, 32, 0), .UNUSED_08),
   ((1, 0, 32, 36, 0), .UNUSED_09),
   ((0, 0, 96, 13, 1), .UNUSED_10),
   ((0, 0, 96, 13, 0), .UNUSED_11),
   ((1, 0, 22, 7, 0), .UNUSED_12),
   ((0, 1, 24, 1, 0), .UNUSED_13),
   ((0, 1, 96, 1, 0), .UNUSED_14)]

/-- `Drm4(tuple)`: value lookup in the enum; `none` models the `ValueError`
caught at line 99 ("non-implemented field"). -/
def drm4OfTuple (t : Nat × Nat × Nat × Nat × Nat) : Option Drm4 :=
  (drm4Table.find? (fun p => p.1 = t)).map (fun p => p.2)

/-- Members with no arm in the `if/elif` dispatch of `parse_telegram`:
recognized but deliberately dropped ("known but unused"). -/
def isUnused (f : Drm4) : Bool :=
  match f with
  | .TIMESTAMP_ELECTR | .READ_DEL_T1_KWH | .READ_DEL_T2_KWH | .TARIFF_INDICATOR
  | .POWER_DEL_KW | .CURRENT_A | .GAS_T_VOLUME_M3 => false
  | _ => true

/-! ## Strings, framing and the checksum -/

/-- Python `str.strip()` whitespace (ASCII, which is all the wire carries). -/
def isWs (c : Char) : Bool :=
  c = ' ' || c = '\t' || c = '\n' || c = '\r' || c.toNat = 11 || c.toNat = 12

/-- `line.strip()`. -/
def pyStrip (s : String) : String :=
  String.mk (((s.data.dropWhile isWs).reverse.dropWhile isWs).reverse)

/-- `line.startswith(c)` for a single character. -/
def startsCh (s : String) (c : Char) : Bool := s.data.head? == some c

/-- `DRM4_LINE_SEP.join(t_content)` with `DRM4_LINE_SEP = '\r\n'`. -/
def joinCRLF (lines : List String) : String := String.intercalate "\r\n" lines

/-- UTF-8 encoding of one code point (`str.encode('utf-8')`). -/
def utf8Char (c : Char) : List Nat :=
  let n := c.toNat
  if n < 128 then [n]
  else if n < 2048 then [192 + n / 64, 128 + n % 64]
  else if n < 65536 then [224 + n / 4096, 128 + n / 64 % 64, 128 + n % 64]
  else [240 + n / 262144, 128 + n / 4096 % 64, 128 + n / 64 % 64, 128 + n % 64]

/-- `s.encode('utf-8')` as a byte list. -/
def utf8Bytes (s : String) : List Nat := s.data.flatMap utf8Char

/-- One step of the MSB-first CRC-16 with polynomial `0x8005`. -/
def crcShift (c : Nat) : Nat :=
  if 32768 ≤ c % 65536 then ((c % 65536) * 2) ^^^ 32773 else (c % 65536) * 2

/-- Fold one byte into the CRC register. -/
def crcByte (c b : Nat) : Nat :=
  let c0 := (c ^^^ (b * 256)) % 65536
  (crcShift (crcShift (crcShift (crcShift (crcShift (crcShift (crcShift (crcShift c0)))))))) % 65536

/-- `crcmod.mkCrcFun(0x18005, rev=False)`: non-reflected CRC-16, polynomial
`0x8005`, crcmod's default initial value of all ones, no output XOR. -/
def drm4crc (bs : List Nat) : Nat := bs.foldl crcByte 65535

/-! ## The decoded record (`telegram_info`) -/

/-- A value stored in the `telegram_info` dict: a float (possibly NaN),
an int (tariff code), a string (`gas_time`), or a datetime. -/
inductive Value where
  | num (x : FloatV)
  | intv (n : Int)
  | strv (s : String)
  | dtv (d : DT)
deriving DecidableEq, Repr

/-- `telegram_info` as an insertion-ordered association list (Python dict). -/
abbrev Record : Type := List (String × Value)

/-- `d[k] = v` with Python dict semantics: replace in place or append. -/
def rinsert (r : Record) (k : String) (v : Value) : Record :=
  if r.any (fun kv => kv.1 = k) then
    r.map (fun kv => if kv.1 = k then (k, v) else kv)
  else r ++ [(k, v)]

/-- `d.get(k)`. -/
def rlookup (r : Record) (k : String) : Option Value :=
  (r.find? (fun kv => kv.1 = k)).map (fun kv => kv.2)

/-- The only keys `parse_telegram` ever writes. -/
def recordFieldNames : List String :=
  ["dt_electricity", "energy_t1", "energy_t2", "tariff_indicator",
   "power_delivered_w", "current_delivered", "gas", "gas_time", "gas_dt"]

/-! ## The decoder loop of `parse_telegram` -/

/-- The log lines `parse_telegram` prints, by kind. -/
inductive LogEv where
  | ignoredAwait (line : String)
  | endTelegram
  | unknownId (line : String)
  | nonImpl (line : String)
  | infoField (line : String)
  | staleElectr
deriving DecidableEq, Repr

/-- The loop state of `parse_telegram`: `awaiting_start`, `t_content`,
`telegram_info`, plus the log printed so far. -/
structure PState where
  awaiting : Bool
  tContent : List String
  info : Record
  logs : List LogEv
deriving DecidableEq, Repr

/-- Initial loop state. -/
def initPState : PState := ⟨true, [], [], []⟩

/-- What one loop iteration decides, as a function of the stripped line,
`awaiting_start` and `telegram_info` only (the control flow never reads
`t_content`, which is threaded separately by `runList`). -/
inductive StepCore where
  | cont (aw : Bool) (info : Record) (lg : List LogEv)
  | haltRec (lg : List LogEv)
  | haltNone (lg : List LogEv)
  | haltCrash
deriving DecidableEq, Repr

/-- The body of the `while True` loop for one (already stripped) line. -/
def stepCore (ew gw : Option DT) (aw : Bool) (info : Record) (line : String) : StepCore :=
  if line = "" then .cont aw info []
  else if aw then
    if startsCh line '/' then .cont false info []
    else .cont aw info [.ignoredAwait line]
  else if startsCh line '!' then .haltRec [.endTelegram]
  else
    match idSearch line with
    | none => .cont aw info [.unknownId line]
    | some tup =>
      match drm4OfTuple tup with
      | none => .cont aw info [.nonImpl line]
      | some field =>
        match contentSearch line with
        | none => .cont aw info [.infoField line]
        | some g =>
          match convertGroups g with
          | .error _ => .haltCrash
          | .ok (value, extra) =>
            match field with
            | .TIMESTAMP_ELECTR =>
              match pyParseDtToUtc value with
              | .error _ => .haltCrash
              | .ok dt =>
                if (match ew with | some w => dtLe dt w | none => false) then
                  .haltNone [.staleElectr]
                else .cont aw (rinsert info "dt_electricity" (.dtv dt)) []
            | .READ_DEL_T1_KWH => .cont aw (rinsert info "energy_t1" (.num value)) []
            | .READ_DEL_T2_KWH => .cont aw (rinsert info "energy_t2" (.num value)) []
            | .TARIFF_INDICATOR =>
              match value with
              | none => .haltCrash
              | some q => .cont aw (rinsert info "tariff_indicator" (.intv (pyTruncToInt q))) []
            | .POWER_DEL_KW =>
              .cont aw (rinsert info "power_delivered_w" (.num (value.map (fun q => 1000 * q)))) []
            | .CURRENT_A => .cont aw (rinsert info "current_delivered" (.num value)) []
            | .GAS_T_VOLUME_M3 =>
              match pyParseDtToUtc value with
              | .error _ => .haltCrash
              | .ok dt =>
                if (match gw with | some w => dtLe dt w | none => false) then
                  .cont aw info []
                else
                  .cont aw
                    (rinsert (rinsert (rinsert info "gas" (.num extra))
                      "gas_time" (.strv (formatIso dt))) "gas_dt" (.dtv dt)) []
            | _ => .cont aw info []

/-- What `parse_telegram` can come back with. -/
inductive Outcome where
  | record (r : Record) (crcData : String) (crc : Nat)
  | noResult
  | crash
  | starved
deriving DecidableEq, Repr

/-- Result of running the loop over a list of lines. -/
inductive RunOut where
  | more (st : PState)
  | halted (o : Outcome) (st : PState)
deriving DecidableEq, Repr

/-- The reader loop: strip, append to `t_content` ("Preparing CRC"), then the
step; on the end marker append the synthetic `'!'`, join with CRLF and
compute the checksum over that byte sequence. -/
def runList (ew gw : Option DT) : List String → PState → RunOut
  | [], st => .more st
  | l :: ls, st =>
    let line := pyStrip l
    let tc := st.tContent ++ [line]
    match stepCore ew gw st.awaiting st.info line with
    | .cont aw info lg =>
      runList ew gw ls ⟨aw, tc, info, st.logs ++ lg⟩
    | .haltRec lg =>
      let tc2 := tc ++ ["!"]
      let data := joinCRLF tc2
      .halted (.record st.info data (drm4crc (utf8Bytes data))) ⟨st.awaiting, tc2, st.info, st.logs ++ lg⟩
    | .haltNone lg => .halted .noResult ⟨st.awaiting, tc, st.info, st.logs ++ lg⟩
    | .haltCrash => .halted .crash ⟨st.awaiting, tc, st.info, st.logs⟩

/-- `parse_telegram(ser, last_timestamp_electr, last_timestamp_gas)` on the
line stream `lines`: the outcome and the final loop state. -/
def parseTelegram (lines : List String) (ew gw : Option DT) : Outcome × PState :=
  match runList ew gw lines initPState with
  | .more st => (.starved, st)
  | .halted o st => (o, st)

/-! ## Views of the outcome and the caller (`main`) watermark updates -/

/-- The decode result as the caller sees it (record / `None` / exception),
with the checksum report erased. -/
inductive OutView where
  | record (r : Record)
  | noRes
  | crashV
  | starveV
deriving DecidableEq, Repr

/-- Erase the checksum report from an outcome. -/
def outView : Outcome → OutView
  | .record r _ _ => .record r
  | .noResult => .noRes
  | .crash => .crashV
  | .starved => .starveV

/-- The decode result of `parse_telegram` on a stream, checksum erased. -/
def parseView (lines : List String) (ew gw : Option DT) : OutView :=
  outView (parseTelegram lines ew gw).1

/-- The returned record, if any. -/
def outcomeRecord : Outcome → Option Record
  | .record r _ _ => some r
  | _ => none

/-- The byte sequence (as a string) the checksum was computed over, if the
telegram completed. -/
def outcomeCrcData : Outcome → Option String
  | .record _ data _ => some data
  | _ => none

/-- `main` line 169: `last_dt_electricity = fields.pop('dt_electricity',
last_dt_electricity)`; on a falsy result `main` raises before the pop, so
the watermark is unchanged. -/
def nextElectrWatermark (o : Outcome) (w : Option DT) : Option DT :=
  match o with
  | .record r _ _ =>
    if r.isEmpty then w
    else
      match rlookup r "dt_electricity" with
      | some (.dtv d) => some d
      | _ => w
  | _ => w

/-- `main` line 173: `last_dt_gas = fields.pop('gas_dt', last_dt_gas)`,
reached only if the result is truthy and an electricity timestamp is
available (otherwise `main` raises first and the watermark is unchanged). -/
def nextGasWatermark (o : Outcome) (prevE w : Option DT) : Option DT :=
  match o with
  | .record r _ _ =>
    if r.isEmpty then w
    else
      match (match rlookup r "dt_electricity" with
             | some (.dtv d) => some d
             | _ => prevE) with
      | none => w
      | some _ =>
        match rlookup r "gas_dt" with
        | some (.dtv d) => some d
        | _ => w
  | _ => w

/-- Helper for `crcDataSpec` (spec-side framer). -/
def crcDataSpecAux (acc : List String) (started : Bool) : List String → Option String
  | [] => none
  | l :: ls =>
    let line := pyStrip l
    if line = "" then crcDataSpecAux acc started ls
    else if !started then
      if startsCh line '/' then crcDataSpecAux (acc ++ [line]) true ls
      else crcDataSpecAux acc started ls
    else if startsCh line '!' then some (joinCRLF (acc ++ [line, "!"]))
    else crcDataSpecAux (acc ++ [line]) started ls

/-- Modelled from the spec: the byte sequence §4.4 says the checksum covers —
only the lines from the start-marker line through the end-marker line
(blank lines and pre-start lines never appended), plus the trailing
synthetic `'!'`, joined with CRLF.  Used solely to compare the spec's
description of the checksummed bytes with what the code computes. -/
def crcDataSpec (lines : List String) : Option String :=
  crcDataSpecAux [] false lines

/-! ## Structural lemmas about the reader loop -/

theorem runList_append (ew gw : Option DT) (xs ys : List String) (st : PState) :
    runList ew gw (xs ++ ys) st =
      match runList ew gw xs st with
      | .more st' => runList ew gw ys st'
      | .halted o st' => .halted o st' := by
  induction xs generalizing st with
  | nil => simp [runList]
  | cons l ls ih =>
    simp only [List.cons_append, runList]
    cases stepCore ew gw st.awaiting st.info (pyStrip l) with
    | cont aw info lg => exact ih _
    | haltRec lg => rfl
    | haltNone lg => rfl
    | haltCrash => rfl

/-- Equivalence of run results that ignores `t_content` and the log: same
continuation state (up to those) or same checksum-erased outcome. -/
def roEquiv : RunOut → RunOut → Prop
  | .more s, .more s' => s.awaiting = s'.awaiting ∧ s.info = s'.info
  | .halted o _, .halted o' _ => outView o = outView o'
  | _, _ => False

/-- The checksum-erased decode result never depends on `t_content` or on the
log accumulated so far: the control flow and the record only read
`awaiting_start` and `telegram_info`. -/
theorem runList_equiv (ew gw : Option DT) (ls : List String) (st st' : PState)
    (ha : st.awaiting = st'.awaiting) (hi : st.info = st'.info) :
    roEquiv (runList ew gw ls st) (runList ew gw ls st') := by
  induction ls generalizing st st' with
  | nil => exact ⟨ha, hi⟩
  | cons l rest ih =>
    simp only [runList]
    rw [ha, hi]
    cases stepCore ew gw st'.awaiting st'.info (pyStrip l) with
    | cont aw info lg => exact ih _ _ rfl rfl
    | haltRec lg => simp [roEquiv, outView]
    | haltNone lg => simp [roEquiv, outView]
    | haltCrash => simp [roEquiv, outView]

/-- The loop appends every line it reads (stripped) to `t_content`,
regardless of state — blank lines and pre-start lines included. -/
theorem runList_tContent (ew gw : Option DT) (ls : List String) (st st' : PState)
    (h : runList ew gw ls st = .more st') :
    st'.tContent = st.tContent ++ ls.map pyStrip := by
  induction ls generalizing st with
  | nil =>
    simp only [runList] at h
    cases h
    simp
  | cons l rest ih =>
    simp only [runList] at h
    cases hs : stepCore ew gw st.awaiting st.info (pyStrip l) with
    | cont aw info lg =>
      rw [hs] at h
      have := ih _ h
      simp only [List.map_cons] at *
      rw [this]
      simp
    | haltRec lg => rw [hs] at h; cases h
    | haltNone lg => rw [hs] at h; cases h
    | haltCrash => rw [hs] at h; cases h

theorem dropWhile_append_singleton {p : Char → Bool} (xs : List Char) (c : Char)
    (hc : p c = false) :
    (xs ++ [c]).dropWhile p = xs.dropWhile p ++ [c] ∨ (xs ++ [c]).dropWhile p = [c] := by
  induction xs with
  | nil =>
    right
    simp [List.dropWhile, hc]
  | cons x l ih =>
    by_cases hx : p x = true
    · simpa [List.dropWhile, hx] using ih
    · left
      simp only [Bool.not_eq_true] at hx
      simp [List.dropWhile, hx]

/-- Stripping a char list whose first character is not whitespace keeps that
character in front. -/
theorem stripData_cons (c : Char) (t : List Char) (hc : isWs c = false) :
    ∃ u, (((c :: t).dropWhile isWs).reverse.dropWhile isWs).reverse = c :: u := by
  simp only [List.dropWhile, hc]
  have hrev : (c :: t).reverse = t.reverse ++ [c] := by simp
  rw [hrev]
  rcases dropWhile_append_singleton t.reverse c hc with h | h <;> rw [h]
  · exact ⟨(t.reverse.dropWhile isWs).reverse, by simp⟩
  · exact ⟨[], by simp⟩

theorem pyStrip_data (s : String) :
    (pyStrip s).data = ((s.data.dropWhile isWs).reverse.dropWhile isWs).reverse := rfl

theorem startsCh_bang (s : String) :
    startsCh (pyStrip ("!" ++ s)) '!' = true ∧ startsCh (pyStrip ("!" ++ s)) '/' = false ∧
      pyStrip ("!" ++ s) ≠ "" := by
  have hdata : ("!" ++ s).data = '!' :: s.data := by
    rw [String.data_append]
    rfl
  obtain ⟨u, hu⟩ := stripData_cons '!' s.data (by decide)
  have hd : (pyStrip ("!" ++ s)).data = '!' :: u := by
    rw [pyStrip_data, hdata, hu]
  refine ⟨?_, ?_, ?_⟩
  · simp [startsCh, hd]
  · simp [startsCh, hd]
  · intro hcon
    rw [hcon] at hd
    simp at hd

/-- The checksum-erased decode result of a run. -/
def runOutView : RunOut → OutView
  | .more _ => .starveV
  | .halted o _ => outView o

theorem parseView_eq_runOutView (lines : List String) (ew gw : Option DT) :
    parseView lines ew gw = runOutView (runList ew gw lines initPState) := by
  unfold parseView parseTelegram runOutView
  cases runList ew gw lines initPState <;> rfl

theorem roEquiv_runOutView {a b : RunOut} (h : roEquiv a b) : runOutView a = runOutView b := by
  cases a <;> cases b <;> simp_all [roEquiv, runOutView]

theorem stepCore_bang (ew gw : Option DT) (aw : Bool) (info : Record) (line : String)
    (hne : line ≠ "") (hslash : startsCh line '/' = false) (hbang : startsCh line '!' = true) :
    stepCore ew gw aw info line =
      if aw then .cont aw info [.ignoredAwait line] else .haltRec [.endTelegram] := by
  unfold stepCore
  rw [if_neg hne]
  cases aw
  · simp [hbang]
  · simp [hslash]

/-- C2: for every line stream, the checksum-erased decode result of
`parse_telegram` (returned record / `None` / exception) is identical across
two runs that differ only in what follows the `'!'` of the end-marker
line: the checksum is computed (as the `crcData`/`crc` components of the
outcome) but never influences whether or what the decoder returns. -/
theorem C2_checksum_never_gates (ew gw : Option DT) (pre rest : List String) (s1 s2 : String) :
    parseView (pre ++ ("!" ++ s1) :: rest) ew gw =
      parseView (pre ++ ("!" ++ s2) :: rest) ew gw := by
  rw [parseView_eq_runOutView, parseView_eq_runOutView, runList_append, runList_append]
  cases hp : runList ew gw pre initPState with
  | halted o st => rfl
  | more st =>
    apply roEquiv_runOutView
    obtain ⟨hb1, hs1, hne1⟩ := startsCh_bang s1
    obtain ⟨hb2, hs2, hne2⟩ := startsCh_bang s2
    simp only [runList]
    rw [stepCore_bang _ _ _ _ _ hne1 hs1 hb1, stepCore_bang _ _ _ _ _ hne2 hs2 hb2]
    cases haw : st.awaiting with
    | true =>
      simp only [if_true]
      exact runList_equiv _ _ _ _ _ rfl rfl
    | false =>
      simp only [Bool.false_eq_true, if_false]
      simp [roEquiv, outView]

theorem drm4_timestamp_electr : drm4OfTuple (0, 0, 1, 0, 0) = some Drm4.TIMESTAMP_ELECTR := by
  decide

theorem drm4_gas_volume : drm4OfTuple (0, 1, 24, 2, 1) = some Drm4.GAS_T_VOLUME_M3 := by
  decide

/-- C1: in a framed telegram whose electricity-timestamp line converts to an
instant `dt` that is not strictly greater than the supplied (non-null)
electricity watermark, `parse_telegram` halts at that line with result
`None` — lines after the timestamp line (arbitrary `post`) are never
processed — and the caller's electricity watermark is left unchanged. -/
theorem C1_stale_electricity_discards (pre post : List String) (tsLine : String)
    (st : PState) (ewm dt : DT) (gw : Option DT) (g : String × Option String) (v e : FloatV)
    (h1 : runList (some ewm) gw pre initPState = .more st)
    (h2 : st.awaiting = false)
    (hne : pyStrip tsLine ≠ "")
    (hnb : startsCh (pyStrip tsLine) '!' = false)
    (hid : idSearch (pyStrip tsLine) = some (0, 0, 1, 0, 0))
    (hct : contentSearch (pyStrip tsLine) = some g)
    (hcv : convertGroups g = .ok (v, e))
    (hdt : pyParseDtToUtc v = .ok dt)
    (hstale : dtLe dt ewm = true) :
    (parseTelegram (pre ++ tsLine :: post) (some ewm) gw).1 = .noResult ∧
      nextElectrWatermark (parseTelegram (pre ++ tsLine :: post) (some ewm) gw).1 (some ewm) =
        some ewm := by
  have hstep : stepCore (some ewm) gw false st.info (pyStrip tsLine) =
      .haltNone [.staleElectr] := by
    unfold stepCore
    rw [if_neg hne]
    simp only [Bool.false_eq_true, if_false, hnb, hid, drm4_timestamp_electr, hct, hcv, hdt,
      hstale, if_true]
  have hrun : runList (some ewm) gw (pre ++ tsLine :: post) initPState =
      .halted .noResult ⟨st.awaiting, st.tContent ++ [pyStrip tsLine], st.info,
        st.logs ++ [.staleElectr]⟩ := by
    rw [runList_append, h1]
    simp only [runList]
    rw [h2, hstep]
  constructor
  · unfold parseTelegram
    rw [hrun]
  · unfold parseTelegram
    rw [hrun]
    rfl

/-- Witness for C1 at a concrete telegram: watermark equal to the telegram's
electricity instant (2022-12-26T11:00:00Z), with one field line after the
timestamp line. -/
theorem C1_witness :
    (parseTelegram ["/X", "0-0:1.0.0(221226120000W)", "1-0:1.8.1(000001.000*kWh)", "!A"]
        (some ⟨2022, 12, 26, 11, 0, 0⟩) none).1 = .noResult ∧
      nextElectrWatermark
        (parseTelegram ["/X", "0-0:1.0.0(221226120000W)", "1-0:1.8.1(000001.000*kWh)", "!A"]
          (some ⟨2022, 12, 26, 11, 0, 0⟩) none).1 (some ⟨2022, 12, 26, 11, 0, 0⟩) =
        some ⟨2022, 12, 26, 11, 0, 0⟩ :=
  C1_stale_electricity_discards ["/X"] ["1-0:1.8.1(000001.000*kWh)", "!A"]
    "0-0:1.0.0(221226120000W)" ⟨false, ["/X"], [], []⟩ ⟨2022, 12, 26, 11, 0, 0⟩
    ⟨2022, 12, 26, 11, 0, 0⟩ none ("221226120000", none) (some (221226120000 : ℚ)) none
    (by decide) (by decide) (by decide) (by decide) (by decide) (by decide) (by decide)
    (by decide) (by decide)

theorem outView_record {o : Outcome} {r : Record} (h : outView o = .record r) :
    ∃ data crc, o = .record r data crc := by
  cases o with
  | record r2 data crc =>
    refine ⟨data, crc, ?_⟩
    have : r2 = r := by simpa [outView] using h
    rw [this]
  | noResult => simp [outView] at h
  | crash => simp [outView] at h
  | starved => simp [outView] at h

theorem rlookup_ne_nil {r : Record} {k : String} {v : Value} (h : rlookup r k = some v) :
    r.isEmpty = false := by
  cases r with
  | nil => simp [rlookup] at h
  | cons a t => rfl

/-- C3: a gas-volume line whose embedded timestamp converts to an instant not
strictly greater than the supplied gas watermark is a complete no-op on the
decode result: the telegram decodes to exactly the record of the same
stream without that line (so it keeps every non-gas field and, when that
record carries no gas keys, contains none), and the caller's gas watermark
is unchanged after consuming the record. -/
theorem C3_stale_gas_drops_only_gas (pre post : List String) (gasLine : String)
    (st : PState) (ew prevE : Option DT) (gwm gdt ed : DT) (g : String × Option String)
    (v e : FloatV) (r : Record)
    (h1 : runList ew (some gwm) pre initPState = .more st)
    (h2 : st.awaiting = false)
    (hne : pyStrip gasLine ≠ "")
    (hnb : startsCh (pyStrip gasLine) '!' = false)
    (hid : idSearch (pyStrip gasLine) = some (0, 1, 24, 2, 1))
    (hct : contentSearch (pyStrip gasLine) = some g)
    (hcv : convertGroups g = .ok (v, e))
    (hdt : pyParseDtToUtc v = .ok gdt)
    (hstale : dtLe gdt gwm = true)
    (hclean : parseView (pre ++ post) ew (some gwm) = .record r)
    (hnog : rlookup r "gas_dt" = none)
    (helec : rlookup r "dt_electricity" = some (.dtv ed)) :
    parseView (pre ++ gasLine :: post) ew (some gwm) = .record r ∧
      nextGasWatermark (parseTelegram (pre ++ gasLine :: post) ew (some gwm)).1 prevE
        (some gwm) = some gwm := by
  have hstep : stepCore ew (some gwm) false st.info (pyStrip gasLine) =
      .cont false st.info [] := by
    unfold stepCore
    rw [if_neg hne]
    simp only [Bool.false_eq_true, if_false, hnb, hid, drm4_gas_volume, hct, hcv, hdt,
      hstale, if_true]
  have hview : parseView (pre ++ gasLine :: post) ew (some gwm) =
      parseView (pre ++ post) ew (some gwm) := by
    rw [parseView_eq_runOutView, parseView_eq_runOutView, runList_append, runList_append, h1]
    simp only [runList]
    rw [h2, hstep]
    exact roEquiv_runOutView (runList_equiv _ _ _ _ _ h2.symm rfl)
  have h1v : parseView (pre ++ gasLine :: post) ew (some gwm) = .record r := by
    rw [hview, hclean]
  refine ⟨h1v, ?_⟩
  have h1o : outView (parseTelegram (pre ++ gasLine :: post) ew (some gwm)).1 = .record r := h1v
  obtain ⟨data, crc, ho⟩ := outView_record h1o
  rw [ho]
  simp only [nextGasWatermark, rlookup_ne_nil helec, Bool.false_eq_true, if_false, helec, hnog]

/-- Witness for C3 at a concrete telegram: fresh electricity timestamp, gas
line whose timestamp equals the gas watermark (so it is stale), record kept
without any gas key, gas watermark unchanged. -/
theorem C3_witness :
    parseView ["/X", "0-0:1.0.0(221226120000W)",
        "0-1:24.2.1(221226120000W)(00123.456*m3)", "!A"] none
        (some ⟨2022, 12, 26, 11, 0, 0⟩) =
      .record [("dt_electricity", Value.dtv ⟨2022, 12, 26, 11, 0, 0⟩)] ∧
      nextGasWatermark
        (parseTelegram ["/X", "0-0:1.0.0(221226120000W)",
          "0-1:24.2.1(221226120000W)(00123.456*m3)", "!A"] none
          (some ⟨2022, 12, 26, 11, 0, 0⟩)).1 none (some ⟨2022, 12, 26, 11, 0, 0⟩) =
        some ⟨2022, 12, 26, 11, 0, 0⟩ :=
  C3_stale_gas_drops_only_gas ["/X", "0-0:1.0.0(221226120000W)"] ["!A"]
    "0-1:24.2.1(221226120000W)(00123.456*m3)"
    ⟨false, ["/X", "0-0:1.0.0(221226120000W)"],
      [("dt_electricity", Value.dtv ⟨2022, 12, 26, 11, 0, 0⟩)], []⟩
    none none ⟨2022, 12, 26, 11, 0, 0⟩ ⟨2022, 12, 26, 11, 0, 0⟩ ⟨2022, 12, 26, 11, 0, 0⟩
    ("221226120000", some "00123.456") (some (221226120000 : ℚ)) (some (15432 / 125 : ℚ))
    [("dt_electricity", Value.dtv ⟨2022, 12, 26, 11, 0, 0⟩)]
    (by decide) (by decide) (by decide) (by decide) (by decide) (by decide) (by decide)
    (by decide) (by decide) (by decide) (by decide) (by decide)

/-- C4 counterexample: on a stream with a pre-start junk line and a blank
line, the code checksums all read lines (junk and blank included), not the
spec's start-through-end sequence: the two byte sequences differ. -/
theorem C4_counterexample :
    outcomeCrcData (parseTelegram ["junk", "/HDR", "", "!ABCD"] none none).1 =
      some "junk\r\n/HDR\r\n\r\n!ABCD\r\n!" ∧
    crcDataSpec ["junk", "/HDR", "", "!ABCD"] = some "/HDR\r\n!ABCD\r\n!" ∧
    (("junk\r\n/HDR\r\n\r\n!ABCD\r\n!" : String) == "/HDR\r\n!ABCD\r\n!") = false :=
  ⟨by decide, by decide, by decide⟩

/-- C4 (amended): the byte sequence over which the checksum is computed is
every line read so far — stripped, but blank lines and pre-start lines
included — followed by the end-marker line and the synthetic `'!'`, joined
with CRLF: `t_content` is appended to before any classification, so every
read line contributes to the checksummed bytes. -/
theorem C4_checksum_covers_every_read_line (pre : List String) (endLine : String)
    (st : PState) (ew gw : Option DT)
    (h1 : runList ew gw pre initPState = .more st)
    (h2 : st.awaiting = false)
    (hne : pyStrip endLine ≠ "")
    (hnb : startsCh (pyStrip endLine) '!' = true) :
    (parseTelegram (pre ++ [endLine]) ew gw).1 =
      .record st.info (joinCRLF (pre.map pyStrip ++ [pyStrip endLine, "!"]))
        (drm4crc (utf8Bytes (joinCRLF (pre.map pyStrip ++ [pyStrip endLine, "!"])))) ∧
      st.tContent = pre.map pyStrip := by
  have htc : st.tContent = pre.map pyStrip := by
    have := runList_tContent ew gw pre initPState st h1
    simpa [initPState] using this
  have hns : startsCh (pyStrip endLine) '/' = false := by
    simp only [startsCh] at hnb ⊢
    rw [beq_iff_eq] at hnb
    rw [hnb]
    rfl
  have hstep : stepCore ew gw false st.info (pyStrip endLine) = .haltRec [.endTelegram] := by
    rw [stepCore_bang _ _ _ _ _ hne hns hnb]
    rfl
  refine ⟨?_, htc⟩
  unfold parseTelegram
  rw [runList_append, h1]
  simp only [runList]
  rw [h2, hstep, htc]
  simp

set_option maxRecDepth 8000 in
/-- Witness for C4 (amended) at the counterexample stream: the checksummed
bytes include the junk line and the blank line. -/
theorem C4_witness :
    (parseTelegram ["junk", "/HDR", "", "!ABCD"] none none).1 =
      .record [] "junk\r\n/HDR\r\n\r\n!ABCD\r\n!" 10765 ∧
      (⟨false, ["junk", "/HDR", ""], [], [LogEv.ignoredAwait "junk"]⟩ : PState).tContent =
        ["junk", "/HDR", ""].map pyStrip := by
  have h := C4_checksum_covers_every_read_line ["junk", "/HDR", ""] "!ABCD"
    ⟨false, ["junk", "/HDR", ""], [], [LogEv.ignoredAwait "junk"]⟩ none none
    (by decide) rfl (by decide) (by decide)
  exact ⟨h.1.trans (by decide), h.2⟩

/-- The value extractor of the decoder: `tel_content_re_extra.search` on the
classified line followed by the numeric conversion; `none` when the regex
finds no parenthesized group. -/
def extractVE (line : String) : Option (Except Unit (FloatV × FloatV)) :=
  (contentSearch line).map convertGroups

/-- C5 counterexample: the gas-volume line `0-1:24.2.1(123.456)` (two groups
expected, only the first present) yields exactly one numeric literal, but
the extractor leaves it in the primary slot with the secondary NaN — not,
as claimed, in the secondary slot with the primary NaN. -/
theorem C5_counterexample :
    idSearch "0-1:24.2.1(123.456)" = some (0, 1, 24, 2, 1) ∧
    drm4OfTuple (0, 1, 24, 2, 1) = some Drm4.GAS_T_VOLUME_M3 ∧
    extractVE "0-1:24.2.1(123.456)" = some (.ok (some (15432 / 125 : ℚ), none)) ∧
    (extractVE "0-1:24.2.1(123.456)" ==
      some (.ok ((none : FloatV), some (15432 / 125 : ℚ)))) = false :=
  ⟨by decide, by decide, by decide, by decide⟩

/-- C5 (amended): the "shift into the secondary slot" happens exactly when
the first group's numeric literal is empty: whenever
`tel_content_re_extra` matches with an empty first group and a nonempty
numeric second group, the single recovered value is placed in the
secondary (`extra`) slot and the primary is NaN.  (When instead only the
first group yields a literal, it stays primary — see the counterexample.) -/
theorem C5_single_value_placement (line t : String) (q : ℚ)
    (hct : contentSearch line = some ("", some t))
    (ht : t ≠ "")
    (hq : pyFloatV t = .ok (some q)) :
    extractVE line = some (.ok ((none : FloatV), some q)) := by
  unfold extractVE
  rw [hct]
  simp only [Option.map]
  have hfil : List.filter (fun s => !decide (s = "")) ["", (some t).getD "nan"] = [t] := by
    simp [ht]
  simp only [convertGroups, hfil]
  unfold convertList
  rw [hq]
  rfl

/-- Witness for C5 (amended): on `0-1:24.2.1()(123.456)` the single numeric
literal `123.456` lands in the secondary slot, with the primary NaN. -/
theorem C5_witness :
    extractVE "0-1:24.2.1()(123.456)" = some (.ok ((none : FloatV), some (15432 / 125 : ℚ))) :=
  C5_single_value_placement "0-1:24.2.1()(123.456)" "123.456" (15432 / 125 : ℚ)
    (by decide) (by decide) (by decide)

/-- C6: the literal body line `1-0:21.7.0(00.424*kW)` inside a framed
telegram stores `power_delivered_w = 424` — the parenthesized value parsed
as a number with the `*kW` suffix ignored, multiplied by 1000. -/
theorem C6_power_line_stores_424 :
    outcomeRecord (parseTelegram ["/X", "1-0:21.7.0(00.424*kW)", "!0000"] none none).1 =
      some [("power_delivered_w", Value.num (some (424 : ℚ)))] := by
  decide

/-- C7: the literal body line `0-1:24.2.1(221226120000W)(00123.456*m3)`
inside a framed telegram, with a gas watermark earlier than
2022-12-26T11:00:00Z (the UTC instant of local 221226120000 in
Europe/Amsterdam), stores `gas = 123.456`, the ISO-8601 UTC text
`2022-12-26T11:00:00Z` as `gas_time`, and that instant as `gas_dt`. -/
theorem C7_gas_line_decodes :
    outcomeRecord (parseTelegram ["/X", "0-1:24.2.1(221226120000W)(00123.456*m3)", "!0000"]
        none (some ⟨2022, 12, 26, 10, 59, 59⟩)).1 =
      some [("gas", Value.num (some (15432 / 125 : ℚ))),
            ("gas_time", Value.strv "2022-12-26T11:00:00Z"),
            ("gas_dt", Value.dtv ⟨2022, 12, 26, 11, 0, 0⟩)] := by
  decide

/-! ## Keys of the decoded record -/

theorem rinsert_keys {r : Record} {k : String} {v : Value} {kv : String × Value}
    (h : kv ∈ rinsert r k v) : kv.1 = k ∨ ∃ kv2 ∈ r, kv.1 = kv2.1 := by
  unfold rinsert at h
  split at h
  · obtain ⟨kv2, hkv2, heq⟩ := List.mem_map.mp h
    by_cases hk : kv2.1 = k
    · rw [if_pos hk] at heq
      left
      rw [← heq]
    · rw [if_neg hk] at heq
      right
      exact ⟨kv2, hkv2, by rw [← heq]⟩
  · rcases List.mem_append.mp h with h | h
    · right
      exact ⟨kv, h, rfl⟩
    · left
      simp only [List.mem_singleton] at h
      rw [h]

theorem keysOk_rinsert {r : Record} {k : String} {v : Value}
    (hr : ∀ kv ∈ r, kv.1 ∈ recordFieldNames) (hk : k ∈ recordFieldNames) :
    ∀ kv ∈ rinsert r k v, kv.1 ∈ recordFieldNames := by
  intro kv hkv
  rcases rinsert_keys hkv with h | ⟨kv2, h2, heq⟩
  · rw [h]
    exact hk
  · rw [heq]
    exact hr kv2 h2

theorem stepCore_keys (ew gw : Option DT) (aw aw2 : Bool) (info info2 : Record)
    (line : String) (lg : List LogEv)
    (hinfo : ∀ kv ∈ info, kv.1 ∈ recordFieldNames)
    (h : stepCore ew gw aw info line = .cont aw2 info2 lg) :
    ∀ kv ∈ info2, kv.1 ∈ recordFieldNames := by
  unfold stepCore at h
  repeat' split at h
  all_goals first
    | (cases h; assumption)
    | (cases h; exact keysOk_rinsert hinfo (by decide))
    | (cases h;
       exact keysOk_rinsert (keysOk_rinsert (keysOk_rinsert hinfo (by decide)) (by decide))
         (by decide))
    | cases h

theorem runList_keys (ew gw : Option DT) (ls : List String) (st : PState)
    (hinfo : ∀ kv ∈ st.info, kv.1 ∈ recordFieldNames) :
    ∀ r data crc st2, runList ew gw ls st = .halted (.record r data crc) st2 →
      ∀ kv ∈ r, kv.1 ∈ recordFieldNames := by
  induction ls generalizing st with
  | nil =>
    intro r data crc st2 h
    cases h
  | cons l rest ih =>
    intro r data crc st2 h
    simp only [runList] at h
    cases hs : stepCore ew gw st.awaiting st.info (pyStrip l) with
    | cont aw info lg =>
      rw [hs] at h
      exact ih _ (stepCore_keys _ _ _ _ _ _ _ _ hinfo hs) _ _ _ _ h
    | haltRec lg =>
      rw [hs] at h
      cases h
      exact hinfo
    | haltNone lg =>
      rw [hs] at h
      cases h
    | haltCrash =>
      rw [hs] at h
      cases h

/-- C8: (1) every key of every record `parse_telegram` returns is one of the
nine fixed field names — in particular no catalog identifier such as
`1-0:99.97.0` is ever a key; (2) that identifier string is not among the
field names; (3) a body line whose identifier matches a known-but-unused
catalog member (with a successful value extraction) is recognized and
dropped in silence: the step keeps `telegram_info` unchanged and emits no
log line at all — in particular neither the unknown-identifier nor the
non-implemented-field report. -/
theorem C8_unused_ids_silent :
    (∀ (lines : List String) (ew gw : Option DT) (r : Record) (k : String),
      outcomeRecord (parseTelegram lines ew gw).1 = some r →
      (∃ v, (k, v) ∈ r) → k ∈ recordFieldNames) ∧
    recordFieldNames.contains "1-0:99.97.0" = false ∧
    (∀ (ew gw : Option DT) (aw : Bool) (info : Record) (line : String)
      (tup : Nat × Nat × Nat × Nat × Nat) (f : Drm4) (g : String × Option String)
      (ve : FloatV × FloatV),
      line ≠ "" → startsCh line '!' = false → aw = false →
      idSearch line = some tup → drm4OfTuple tup = some f → isUnused f = true →
      contentSearch line = some g → convertGroups g = .ok ve →
      stepCore ew gw aw info line = .cont aw info []) := by
  refine ⟨?_, by decide, ?_⟩
  · intro lines ew gw r k hrec ⟨v, hv⟩
    unfold parseTelegram at hrec
    cases hr : runList ew gw lines initPState with
    | more st =>
      rw [hr] at hrec
      cases hrec
    | halted o st =>
      rw [hr] at hrec
      cases o with
      | record r2 data crc =>
        have : r2 = r := by simpa [outcomeRecord] using hrec
        subst this
        exact runList_keys ew gw lines initPState (by intro kv hkv; cases hkv) r2 data crc st hr
          (k, v) hv
      | noResult => simp [outcomeRecord] at hrec
      | crash => simp [outcomeRecord] at hrec
      | starved => simp [outcomeRecord] at hrec
  · intro ew gw aw info line tup f g ve hne hnb haw hid hf hunused hct hcv
    subst haw
    obtain ⟨v, e⟩ := ve
    unfold stepCore
    rw [if_neg hne]
    simp only [Bool.false_eq_true, if_false, hnb, hid, hf, hct, hcv]
    cases f <;> first
      | rfl
      | exact absurd hunused (by decide)

/-- Witness for C8: a concrete accepted record's key is a fixed field name,
and the unused identifier `1-0:99.97.0` line is dropped silently. -/
theorem C8_witness :
    ("power_delivered_w" ∈ recordFieldNames) ∧
    stepCore none none false [] "1-0:99.97.0(123)" = .cont false [] [] :=
  ⟨C8_unused_ids_silent.1 ["/X", "1-0:21.7.0(1*kW)", "!A"] none none
      [("power_delivered_w", Value.num (some 1000))] "power_delivered_w" (by decide)
      ⟨Value.num (some 1000), by decide⟩,
    C8_unused_ids_silent.2.2 none none false [] "1-0:99.97.0(123)" (1, 0, 99, 97, 0)
      Drm4.UNUSED_07 ("123", none) (some 123, none) (by decide) (by decide) rfl (by decide)
      (by decide) (by decide) (by decide) (by decide)⟩

/-! ## The numeric pathway for wire timestamps (C10) -/

/-- The decoder's numeric pathway for a wire timestamp: the digit string is
parsed by `float(...)` (through the value extractor), truncated with
`int(...)`, and rendered back with `str(...)` before `strptime` sees it
(`parse_dt_to_utc`'s `str(int(dt_naive_f))`). -/
def wireNumericPathway (s : String) : Option String :=
  (pyFloatNum s.data).map (fun q => natToString (pyTruncToNat q))

/-- C10 counterexample: the 12-digit wire timestamp `050101000000`
(2005-01-01 00:00:00) does not survive the numeric pathway: the rendered
string drops the leading zero, and `strptime` then silently re-splits the
11 remaining digits as 2050-10-10 00:00:00 — a different instant, so the
pathway does lose information. -/
theorem C10_counterexample :
    wireNumericPathway "050101000000" = some "50101000000" ∧
    (("50101000000" : String) == "050101000000") = false ∧
    pyStrptimeDrm4 "50101000000" = some ⟨2050, 10, 10, 0, 0, 0⟩ ∧
    pyStrptimeDrm4 "050101000000" = some ⟨2005, 1, 1, 0, 0, 0⟩ :=
  ⟨by decide, by decide, by decide, by decide⟩

theorem takeWhile_of_all {p : Char → Bool} :
    ∀ (l : List Char), (∀ c ∈ l, p c = true) → l.takeWhile p = l ∧ l.dropWhile p = [] := by
  intro l
  induction l with
  | nil => intro _; exact ⟨rfl, rfl⟩
  | cons c t ih =>
    intro h
    have hc : p c = true := h c (by simp)
    have ht := ih (fun x hx => h x (List.mem_cons_of_mem c hx))
    constructor
    · simp [List.takeWhile, hc, ht.1]
    · simp [List.dropWhile, hc, ht.2]

/-- C10 (amended): for every 12-digit wire timestamp whose leading digit is
nonzero, the numeric pathway reproduces the original digit string exactly
— its value is below `2^53` (hence exactly representable as a float) and
the decimal rendering restores the same digits. -/
theorem C10_roundtrip_no_leading_zero (s : String)
    (h12 : s.data.length = 12)
    (hdig : ∀ c ∈ s.data, isDig c = true)
    (h0 : (s.data.head? == some '0') = false) :
    wireNumericPathway s = some s ∧ ofDigitVals s.data < 2 ^ 53 := by
  have hne : s.data ≠ [] := by
    intro hcon
    rw [hcon] at h12
    cases h12
  have hhead : s.data.head? ≠ some '0' := by
    intro hcon
    rw [hcon] at h0
    cases h0
  have hlt : ofDigitVals s.data < 2 ^ 53 := by
    have h1 := ofDigitVals_lt s.data hdig
    rw [h12] at h1
    calc ofDigitVals s.data < 10 ^ 12 := h1
      _ < 2 ^ 53 := by decide
  refine ⟨?_, hlt⟩
  obtain ⟨htake, hdrop⟩ := takeWhile_of_all s.data hdig
  have hfl : pyFloatNum s.data = some ((ofDigitVals s.data : ℚ)) := by
    unfold pyFloatNum
    rw [htake, hdrop]
    simp [hne]
  have htr : pyTruncToNat ((ofDigitVals s.data : ℚ)) = ofDigitVals s.data := by
    unfold pyTruncToNat pyTruncToInt
    rw [Rat.num_natCast, Rat.den_natCast]
    simp [Int.tdiv]
  unfold wireNumericPathway
  rw [hfl]
  simp only [Option.map]
  rw [htr]
  unfold natToString
  rw [natToDigits_ofDigitVals s.data hne hdig hhead]


/-- Witness for C10 (amended) at the wire timestamp `221226120000`. -/
theorem C10_witness :
    wireNumericPathway "221226120000" = some "221226120000" ∧
      ofDigitVals "221226120000".data < 2 ^ 53 :=
  C10_roundtrip_no_leading_zero "221226120000" (by decide) (by decide) (by decide)

/-! ## Round trip of the ISO timestamp text (C9) -/

theorem takeWhile_append_of_all {p : Char → Bool} (xs : List Char) (y : Char) (r : List Char)
    (hall : ∀ c ∈ xs, p c = true) (hy : p y = false) :
    (xs ++ y :: r).takeWhile p = xs := by
  induction xs with
  | nil => simp [List.takeWhile, hy]
  | cons a t ih =>
    have ha : p a = true := hall a (by simp)
    simp only [List.cons_append, List.takeWhile, ha]
    exact congrArg (fun l => a :: l) (ih (fun c hc => hall c (List.mem_cons_of_mem a hc)))

theorem padDigits_all_dig (w n : Nat) : ∀ c ∈ padDigits w n, isDig c = true := by
  intro c hc
  unfold padDigits at hc
  rcases List.mem_append.mp hc with h | h
  · rw [List.eq_of_mem_replicate h]
    decide
  · exact natToDigits_all_dig n c h

theorem padDigits_length {w n : Nat} (hw : 1 ≤ w) (h : n < 10 ^ w) :
    (padDigits w n).length = w := by
  unfold padDigits
  have := natToDigits_length_le hw h
  have h1 : 1 ≤ (natToDigits n).length := by
    have := natToDigits_ne_nil n
    cases hc : natToDigits n with
    | nil => exact absurd hc this
    | cons a t => simp
  simp only [List.length_append, List.length_replicate]
  omega

theorem foldl_digits_replicate_zero (k : Nat) :
    List.foldl (fun a c => 10 * a + charVal c) 0 (List.replicate k '0') = 0 := by
  induction k with
  | zero => rfl
  | succ k ih => simpa [List.replicate_succ, List.foldl_cons] using ih

theorem ofDigitVals_padDigits (w n : Nat) : ofDigitVals (padDigits w n) = n := by
  unfold padDigits ofDigitVals
  rw [List.foldl_append, foldl_digits_replicate_zero]
  exact ofDigitVals_natToDigits n

theorem rdY_pad4 (y : Nat) (r : List Char) (hy : y < 10000) :
    rdY (padDigits 4 y ++ '-' :: r) = some (y, '-' :: r) := by
  have hall := padDigits_all_dig 4 y
  have hlen : (padDigits 4 y).length = 4 := padDigits_length (by omega) (by simpa using hy)
  have htake : (padDigits 4 y).take 4 = padDigits 4 y := List.take_of_length_le hlen.le
  have hne : (padDigits 4 y).isEmpty = false := by
    cases hc : padDigits 4 y with
    | nil => rw [hc] at hlen; cases hlen
    | cons a t => rfl
  unfold rdY
  rw [takeWhile_append_of_all _ _ _ hall (by decide), htake]
  simp only [hne, Bool.false_eq_true, if_false, ofDigitVals_padDigits, List.drop_left]

theorem pad2_eq {n : Nat} (h : n < 100) :
    padDigits 2 n = [digitChar (n / 10), digitChar (n % 10)] := by
  by_cases hn : n < 10
  · unfold padDigits
    rw [natToDigits_eq, if_pos hn]
    have h1 : n / 10 = 0 := Nat.div_eq_of_lt hn
    have h2 : n % 10 = n := Nat.mod_eq_of_lt hn
    rw [h1, h2]
    rfl
  · unfold padDigits
    rw [natToDigits_eq, if_neg hn]
    have hq : n / 10 < 10 := by omega
    rw [natToDigits_eq, if_pos hq]
    rfl

theorem rdTwoOne_pad2 (c2 : Nat → Nat → Bool) (c1 : Nat → Bool) (n : Nat) (r : List Char)
    (hn : n < 100) (hc : c2 (n / 10) (n % 10) = true) :
    rdTwoOne c2 c1 (padDigits 2 n ++ r) = some (n, r) := by
  rw [pad2_eq hn]
  show rdTwoOne c2 c1 (digitChar (n / 10) :: digitChar (n % 10) :: r) = some (n, r)
  simp only [rdTwoOne]
  have hq : n / 10 < 10 := by omega
  have hr : n % 10 < 10 := Nat.mod_lt _ (by omega)
  rw [charVal_digitChar hq, charVal_digitChar hr, isDig_digitChar hq, isDig_digitChar hr, hc]
  simp only [Bool.and_true, Bool.true_and, if_true]
  have : 10 * (n / 10) + n % 10 = n := by omega
  rw [this]

theorem rdLit_cons (c : Char) (r : List Char) : rdLit c (c :: r) = some r := by
  simp [rdLit]

theorem month2_true {m : Nat} (h1 : 1 ≤ m) (h2 : m ≤ 12) : month2 (m / 10) (m % 10) = true := by
  unfold month2
  simp only [Bool.or_eq_true, Bool.and_eq_true, beq_iff_eq, decide_eq_true_eq]
  omega

theorem day2_true {d : Nat} (h1 : 1 ≤ d) (h2 : d ≤ 31) : day2 (d / 10) (d % 10) = true := by
  unfold day2
  simp only [Bool.or_eq_true, Bool.and_eq_true, beq_iff_eq, decide_eq_true_eq]
  omega

theorem hour2_true {h : Nat} (hh : h ≤ 23) : hour2 (h / 10) (h % 10) = true := by
  unfold hour2
  simp only [Bool.or_eq_true, Bool.and_eq_true, beq_iff_eq, decide_eq_true_eq]
  omega

theorem minute2_true {m : Nat} (hm : m ≤ 59) : minute2 (m / 10) (m % 10) = true := by
  unfold minute2
  simp only [decide_eq_true_eq]
  omega

theorem sec2_true {s : Nat} (hs : s ≤ 59) : sec2 (s / 10) (s % 10) = true := by
  unfold sec2
  simp only [Bool.or_eq_true, Bool.and_eq_true, beq_iff_eq, decide_eq_true_eq]
  omega

theorem dim_bounds {y m : Nat} (h1 : 1 ≤ m) (h2 : m ≤ 12) :
    28 ≤ daysInMonth y m ∧ daysInMonth y m ≤ 31 := by
  interval_cases m <;> simp only [daysInMonth] <;> first
    | omega
    | (split <;> omega)

/-- Formatting a datetime with valid field ranges to the ISO text form and
re-parsing it with the same pattern (plus the fixed UTC designation)
reproduces the same fields. -/
theorem isoRoundTrip (dt : DT) (hy1 : 1 ≤ dt.y) (hy2 : dt.y ≤ 9999) (hm1 : 1 ≤ dt.m)
    (hm2 : dt.m ≤ 12) (hd1 : 1 ≤ dt.d) (hd2 : dt.d ≤ daysInMonth dt.y dt.m)
    (hh : dt.h ≤ 23) (hmi : dt.mi ≤ 59) (hs : dt.s ≤ 59) :
    parseIsoUtc (formatIso dt) = some dt := by
  have hd31 : dt.d ≤ 31 := le_trans hd2 (dim_bounds hm1 hm2).2
  have hdata : (formatIso dt).data =
      padDigits 4 dt.y ++ '-' :: (padDigits 2 dt.m ++ '-' :: (padDigits 2 dt.d ++
        'T' :: (padDigits 2 dt.h ++ ':' :: (padDigits 2 dt.mi ++ ':' ::
          (padDigits 2 dt.s ++ ['Z']))))) := rfl
  unfold parseIsoUtc
  rw [hdata, rdY_pad4 dt.y _ (by omega)]
  simp only [Option.bind]
  rw [rdLit_cons]
  simp only [Option.bind]
  rw [rdTwoOne_pad2 month2 month1 dt.m _ (by omega) (month2_true hm1 hm2)]
  simp only [Option.bind]
  rw [rdLit_cons]
  simp only [Option.bind]
  rw [rdTwoOne_pad2 day2 day1 dt.d _ (by omega) (day2_true hd1 hd31)]
  simp only [Option.bind]
  rw [rdLit_cons]
  simp only [Option.bind]
  rw [rdTwoOne_pad2 hour2 hour1 dt.h _ (by omega) (hour2_true hh)]
  simp only [Option.bind]
  rw [rdLit_cons]
  simp only [Option.bind]
  rw [rdTwoOne_pad2 minute2 minute1 dt.mi _ (by omega) (minute2_true hmi)]
  simp only [Option.bind]
  rw [rdLit_cons]
  simp only [Option.bind]
  rw [rdTwoOne_pad2 sec2 sec1 dt.s _ (by omega) (sec2_true hs)]
  simp only [Option.bind]
  rw [rdLit_cons]
  simp only [Option.bind]
  simp [hy1, hy2, hm1, hm2, hd1, hd2, hh, hmi, hs]

/-- The field ranges guaranteed by a successful `strptime` of the compact
wire format (regex shape plus `datetime` validation). -/
theorem pyStrptimeDrm4_ranges {s : String} {naive : DT} (h : pyStrptimeDrm4 s = some naive) :
    1900 ≤ naive.y ∧ naive.y ≤ 9999 ∧ 1 ≤ naive.m ∧ naive.m ≤ 12 ∧ 1 ≤ naive.d ∧
      naive.d ≤ daysInMonth naive.y naive.m ∧ naive.h ≤ 23 ∧ naive.mi ≤ 59 ∧
      naive.s ≤ 59 := by
  unfold pyStrptimeDrm4 at h
  cases hm : drm4Match s.data with
  | none =>
    rw [hm] at h
    cases h
  | some t =>
    rw [hm] at h
    obtain ⟨yy, m, d, hh, mi, sec⟩ := t
    simp only [Bool.and_eq_true, decide_eq_true_eq] at h
    split at h
    · next hcond =>
      cases h
      obtain ⟨⟨⟨⟨⟨⟨⟨⟨hcy1, hcy2⟩, hcm1⟩, hcm2⟩, hcd1⟩, hcd2⟩, hch⟩, hcmi⟩, hcs⟩ := hcond
      refine ⟨?_, hcy2, hcm1, hcm2, hcd1, hcd2, hch, hcmi, hcs⟩
      show 1900 ≤ drm4Century yy
      unfold drm4Century
      split <;> omega
    · cases h

/-- Subtracting a 1- or 2-hour offset preserves calendar validity. -/
theorem subHours_valid (n : DT) (off : Nat) (ho1 : 1 ≤ off) (ho2 : off ≤ 2)
    (hy1 : 2 ≤ n.y) (hy2 : n.y ≤ 9999) (hm1 : 1 ≤ n.m) (hm2 : n.m ≤ 12)
    (hd1 : 1 ≤ n.d) (hd2 : n.d ≤ daysInMonth n.y n.m) (hh : n.h ≤ 23)
    (hmi : n.mi ≤ 59) (hs : n.s ≤ 59) :
    1 ≤ (subHours n off).y ∧ (subHours n off).y ≤ 9999 ∧ 1 ≤ (subHours n off).m ∧
      (subHours n off).m ≤ 12 ∧ 1 ≤ (subHours n off).d ∧
      (subHours n off).d ≤ daysInMonth (subHours n off).y (subHours n off).m ∧
      (subHours n off).h ≤ 23 ∧ (subHours n off).mi ≤ 59 ∧ (subHours n off).s ≤ 59 := by
  unfold subHours
  by_cases h1 : off ≤ n.h
  · rw [if_pos h1]
    exact ⟨show 1 ≤ n.y by omega, show n.y ≤ 9999 by omega, hm1, hm2, hd1, hd2,
      show n.h - off ≤ 23 by omega, hmi, hs⟩
  · rw [if_neg h1]
    by_cases h2 : 1 < n.d
    · rw [if_pos h2]
      exact ⟨show 1 ≤ n.y by omega, show n.y ≤ 9999 by omega, hm1, hm2,
        show 1 ≤ n.d - 1 by omega, show n.d - 1 ≤ daysInMonth n.y n.m by omega,
        show n.h + 24 - off ≤ 23 by omega, hmi, hs⟩
    · rw [if_neg h2]
      by_cases h3 : 1 < n.m
      · rw [if_pos h3]
        have hdm := dim_bounds (y := n.y) (m := n.m - 1) (by omega) (by omega)
        exact ⟨show 1 ≤ n.y by omega, show n.y ≤ 9999 by omega,
          show 1 ≤ n.m - 1 by omega, show n.m - 1 ≤ 12 by omega,
          show 1 ≤ daysInMonth n.y (n.m - 1) by omega, le_rfl,
          show n.h + 24 - off ≤ 23 by omega, hmi, hs⟩
      · rw [if_neg h3]
        exact ⟨show 1 ≤ n.y - 1 by omega, show n.y - 1 ≤ 9999 by omega,
          show (1 : Nat) ≤ 12 by omega, le_rfl, show (1 : Nat) ≤ 31 by omega, le_rfl,
          show n.h + 24 - off ≤ 23 by omega, hmi, hs⟩

/-- C9: every timestamp `parse_dt_to_utc` can produce (in particular every
gas timestamp the decoder accepts and stores) survives the ISO round trip:
formatting it with `'%Y-%m-%dT%H:%M:%SZ'` and re-parsing that text with
the same pattern, localized as UTC, reproduces the same instant at second
precision. -/
theorem C9_gas_timestamp_roundtrip (v : FloatV) (dt : DT)
    (h : pyParseDtToUtc v = .ok dt) :
    parseIsoUtc (formatIso dt) = some dt := by
  cases v with
  | none => simp [pyParseDtToUtc] at h
  | some q =>
    simp only [pyParseDtToUtc] at h
    cases hs : pyStrptimeDrm4 (natToString (pyTruncToNat q)) with
    | none =>
      rw [hs] at h
      simp at h
    | some naive =>
      rw [hs] at h
      simp only [Except.ok.injEq] at h
      subst h
      obtain ⟨r1, r2, r3, r4, r5, r6, r7, r8, r9⟩ := pyStrptimeDrm4_ranges hs
      have hoff : 1 ≤ tzOffsetHours naive ∧ tzOffsetHours naive ≤ 2 := by
        unfold tzOffsetHours
        split <;> omega
      obtain ⟨v1, v2, v3, v4, v5, v6, v7, v8, v9⟩ :=
        subHours_valid naive (tzOffsetHours naive) hoff.1 hoff.2 (by omega) r2 r3 r4 r5
          r6 r7 r8 r9
      exact isoRoundTrip (amsToUtc naive) v1 v2 v3 v4 v5 v6 v7 v8 v9

/-- Witness for C9 at the gas timestamp of the concrete telegram line
(`221226120000` local, i.e. 2022-12-26T11:00:00Z). -/
theorem C9_witness :
    pyParseDtToUtc (some (221226120000 : ℚ)) = .ok ⟨2022, 12, 26, 11, 0, 0⟩ ∧
      parseIsoUtc (formatIso ⟨2022, 12, 26, 11, 0, 0⟩) = some ⟨2022, 12, 26, 11, 0, 0⟩ :=
  ⟨by decide,
    C9_gas_timestamp_roundtrip (some (221226120000 : ℚ)) ⟨2022, 12, 26, 11, 0, 0⟩ (by decide)⟩
